import Mathlib

/-!
Shallow embedding of `Scripts/check_tuist_graph_architecture.py`: a static
architecture linter over a serialized `tuist graph -f json` dependency graph.

JSON documents are modelled by the inductive `Json`; Python `dict`s become
association lists in insertion order, Python `str()` conversion becomes
`pyStr`, dynamic-typing failures (AttributeError / TypeError) become an
explicit error type.  Each Python function of the script is transcribed as a
Lean function of the same name; loop bodies that `continue` contribute the
empty list to an append, which preserves the iteration order of the original.
-/

/-- JSON values, as produced by `json.loads`.  Numbers are modelled as
integers; no claim depends on numeric values. -/
inductive Json where
  | null : Json
  | bool (b : Bool) : Json
  | num (n : Int) : Json
  | str (s : String) : Json
  | arr (items : List Json) : Json
  | obj (members : List (String × Json)) : Json

/-- Lookup of a key in a Python dict (modelled as an association list in
insertion order; parsed JSON objects have unique keys). -/
def jget (kvs : List (String × Json)) (k : String) : Option Json :=
  (kvs.find? (fun p => p.1 == k)).map (fun p => p.2)

/-- Python `repr()` of a JSON value (string escaping elided; only the
string case and non-emptiness of the result matter to the program). -/
def pyRepr : Json → String
  | .null => "None"
  | .bool b => if b then "True" else "False"
  | .num n => toString n
  | .str s => "\x27" ++ s ++ "\x27"
  | .arr xs => "[" ++ String.intercalate ", " (xs.attach.map (fun x => pyRepr x.1)) ++ "]"
  | .obj kvs =>
      "\x7b" ++
        String.intercalate ", "
          (kvs.attach.map (fun kv => "\x27" ++ kv.1.1 ++ "\x27: " ++ pyRepr kv.1.2)) ++
      "\x7d"
decreasing_by
  · simp_wf; have := List.sizeOf_lt_of_mem x.2; omega
  · simp_wf
    obtain ⟨⟨a, b⟩, hmem⟩ := kv
    have := List.sizeOf_lt_of_mem hmem
    simp at this ⊢
    omega

/-- Python `str()` of a JSON value. -/
def pyStr : Json → String
  | .str s => s
  | j => pyRepr j

/-- Python dataclass `_TargetKey`: identifies a target by project path and target name. -/
structure TargetKey where
  project_path : String
  target_name : String
deriving DecidableEq, Repr

/-- Python dataclass `_ModuleTarget`: the classified module descriptor. -/
structure ModuleTarget where
  layer : String
  module_name : String
  kind : String
  bundle_id : String
deriving DecidableEq, Repr

/-- Constant `_MODULE_KINDS` from the script. -/
def _MODULE_KINDS : List String := ["interface", "impl", "testing", "tests"]

/-- Constant `_MODULE_LAYERS` from the script. -/
def _MODULE_LAYERS : List String := ["core", "compositionRoot", "feature", "shared", "utility", "app"]

/-- Python `bundle_id.split(".")`: split a string at every dot, keeping
empty pieces (consecutive dots yield empty strings, as in CPython). -/
def _split_dot_aux : List Char → List Char → List String
  | [], acc => [String.mk acc.reverse]
  | c :: cs, acc =>
      if c = Char.ofNat 46 then String.mk acc.reverse :: _split_dot_aux cs []
      else _split_dot_aux cs (c :: acc)

/-- Python `s.split(".")`. -/
def _split_dot (s : String) : List String := _split_dot_aux s.data []

example : _split_dot "a..b" = ["a", "", "b"] := by decide
example : _split_dot "" = [""] := by decide
example : _split_dot "a.b.c" = ["a", "b", "c"] := by decide

/-- The layer-scan loop of `_parse_module_target`
(`for index, component in enumerate(parts[:-1]): if component in
_MODULE_LAYERS: layer_index = index`), applied to `parts[:-1]`:
a left fold in which a later match overwrites an earlier one. -/
def _last_layer_index (l : List String) : Option Nat :=
  l.enum.foldl (fun acc p => if p.2 ∈ _MODULE_LAYERS then some p.1 else acc) none

/-- Function `_parse_module_target`: classify a bundle identifier into a module
descriptor, or `none`. -/
def _parse_module_target (bundle_id : String) : Option ModuleTarget :=
  let parts := (_split_dot bundle_id).filter (fun p => p ≠ "")
  if parts.length < 2 then none
  else
    let kind := parts.getLastD ""
    if kind ∉ _MODULE_KINDS then none
    else
      match _last_layer_index parts.dropLast with
      | none => none
      | some layer_index =>
        let module_index := layer_index + 1
        if module_index ≥ parts.length - 1 then none
        else some { layer := parts.getD layer_index ""
                    module_name := parts.getD module_index ""
                    kind := kind
                    bundle_id := bundle_id }

example : _parse_module_target "feature.core.WidgetKit.impl" =
    some { layer := "core", module_name := "WidgetKit", kind := "impl",
           bundle_id := "feature.core.WidgetKit.impl" } := by decide

example : _parse_module_target "feature.Widgets.impl" =
    some { layer := "feature", module_name := "Widgets", kind := "impl",
           bundle_id := "feature.Widgets.impl" } := by decide

example : _parse_module_target "feature.impl" = none := by decide
example : _parse_module_target "...." = none := by decide
example : _parse_module_target "com.example.Widgets.impl" = none := by decide
example : _parse_module_target "feature.Widgets.framework" = none := by decide

/-- Dynamic-typing / parse failures surfaced by the script:
`json.JSONDecodeError` from `json.loads`, and `AttributeError` /
`TypeError` from using a non-dict where a dict method or iteration is
expected. -/
inductive PyError where
  | malformedGraph : PyError
  | attributeError : PyError
  | typeError : PyError
deriving DecidableEq, Repr

/-- Python `graph.get(key, default)`: dict lookup with default;
`AttributeError` when the receiver is not a dict. -/
def pyDictGetD (j : Json) (k : String) (d : Json) : Except PyError Json :=
  match j with
  | .obj kvs => .ok ((jget kvs k).getD d)
  | _ => .error .attributeError

/-- Python `for item in j`: iteration over a JSON value.  Lists yield their
items, strings their characters, dicts their keys; other values raise
`TypeError`. -/
def pyIter (j : Json) : Except PyError (List Json) :=
  match j with
  | .arr xs => .ok xs
  | .str s => .ok (s.data.map (fun c => .str (String.mk [c])))
  | .obj kvs => .ok (kvs.map (fun kv => .str kv.1))
  | _ => .error .typeError

/-- Bool-valued `isinstance(item, dict) and "path" in item and "targets" in item`. -/
def _is_project_object (item : Json) : Bool :=
  match item with
  | .obj kvs => (jget kvs "path").isSome && (jget kvs "targets").isSome
  | _ => false

/-- Function `_iter_project_objects`: keep the items of `graph.get("projects", [])`
that are dicts exposing both a `path` and a `targets` member. -/
def _iter_project_objects (graph : Json) : Except PyError (List Json) := do
  let projs ← pyDictGetD graph "projects" (.arr [])
  let items ← pyIter projs
  return items.filter _is_project_object

/-- Function `_load_graph`: `json.loads` of the raw payload.  The argument
abstracts the textual payload as parsed by `json.loads`: `some j` when the
text is a well-formed JSON document denoting `j`, `none` when it is not,
in which case `json.loads` raises (`MalformedGraphError` of the spec). -/
def _load_graph (raw : Option Json) : Except PyError Json :=
  match raw with
  | none => .error .malformedGraph
  | some j => .ok j

/-- The target index: a Python `dict[_TargetKey, _ModuleTarget | None]`,
modelled as an association list in insertion order. -/
abbrev TargetIndex := List (TargetKey × Option ModuleTarget)

/-- Python `d[k] = v` on the index dict: overwrite in place when the key
is present, append otherwise. -/
def dictInsert (d : TargetIndex) (k : TargetKey) (v : Option ModuleTarget) : TargetIndex :=
  if d.any (fun p => p.1 == k) then
    d.map (fun p => if p.1 == k then (k, v) else p)
  else d ++ [(k, v)]

/-- Python `d.get(k)` on the index dict: `None` both when the key is
missing and when the stored value is itself `None`. -/
def dictGet (d : TargetIndex) (k : TargetKey) : Option ModuleTarget :=
  match d.find? (fun p => p.1 == k) with
  | some p => p.2
  | none => none

/-- Body of the inner loop of `_build_target_index`, for one
`(target_name, target)` item: insert a classified entry when the target
record is a dict, otherwise `continue`. -/
def _index_target (project_path : String) (index : TargetIndex)
    (kv : String × Json) : TargetIndex :=
  match kv.2 with
  | .obj tk =>
      let module_target :=
        match jget tk "bundleId" with
        | some (.str s) => _parse_module_target s
        | _ => none
      dictInsert index ⟨project_path, kv.1⟩ module_target
  | _ => index

/-- Body of the outer loop of `_build_target_index`, for one project
record: `str(project.get("path"))` names the project, and the targets
dict is walked in insertion order (`continue` when it is not a dict). -/
def _index_project (index : TargetIndex) (project : Json) : TargetIndex :=
  match project with
  | .obj pk =>
      let project_path := pyStr ((jget pk "path").getD .null)
      match (jget pk "targets").getD (.obj []) with
      | .obj tkvs => tkvs.foldl (_index_target project_path) index
      | _ => index
  | _ => index

/-- Function `_build_target_index`: every `(project, target)` pair of the graph is
keyed to its classified module descriptor (or `None`). -/
def _build_target_index (graph : Json) : Except PyError TargetIndex := do
  let projects ← _iter_project_objects graph
  return projects.foldl _index_project []

/-- A directed dependency edge between two target keys. -/
abbrev Edge := TargetKey × TargetKey

/-- Body of the dependency loop of `_iter_edges`, for one dependency
reference: a cross-project reference (`dep["project"]` is a dict) yields
an edge when the stringified destination path is non-empty and the
destination target is a string; otherwise an intra-project reference
(`dep["target"]` is a dict) yields an edge when the name is a string;
everything else contributes nothing. -/
def _edge_of_dep (project_path : String) (source_key : TargetKey) (dep : Json) : List Edge :=
  match dep with
  | .obj dk =>
      match jget dk "project" with
      | some (.obj pj) =>
          let destination_project_path := pyStr ((jget pj "path").getD (.str ""))
          match jget pj "target" with
          | some (.str destination_target) =>
              if destination_project_path = "" then []
              else [(source_key, ⟨destination_project_path, destination_target⟩)]
          | _ => []
      | _ =>
          match jget dk "target" with
          | some (.obj tj) =>
              match jget tj "name" with
              | some (.str destination_target) =>
                  [(source_key, ⟨project_path, destination_target⟩)]
              | _ => []
          | _ => []
  | _ => []

/-- Body of the target loop of `_iter_edges`, for one
`(source_target_name, target)` item: walk the `dependencies` list when it
is a list, `continue` otherwise. -/
def _edges_of_target (project_path : String) (kv : String × Json) : List Edge :=
  match kv.2 with
  | .obj tk =>
      let source_key : TargetKey := ⟨project_path, kv.1⟩
      match (jget tk "dependencies").getD (.arr []) with
      | .arr deps => deps.foldl (fun es dep => es ++ _edge_of_dep project_path source_key dep) []
      | _ => []
  | _ => []

/-- Body of the project loop of `_iter_edges`, for one project record. -/
def _edges_of_project (project : Json) : List Edge :=
  match project with
  | .obj pk =>
      let project_path := pyStr ((jget pk "path").getD .null)
      match (jget pk "targets").getD (.obj []) with
      | .obj tkvs => tkvs.foldl (fun es kv => es ++ _edges_of_target project_path kv) []
      | _ => []
  | _ => []

/-- Function `_iter_edges`: enumerate all dependency edges of the graph, in
(project, target, dependency-declaration) order. -/
def _iter_edges (graph : Json) : Except PyError (List Edge) := do
  let projects ← _iter_project_objects graph
  return projects.foldl (fun es project => es ++ _edges_of_project project) []

/-- The violation message built by `_check_no_illegal_impl_to_impl_edges`
for one offending edge. -/
def _violation_message (source : TargetKey) (source_module : ModuleTarget)
    (dest : TargetKey) (dest_module : ModuleTarget) : String :=
  "🛑 ARCHITECTURE VIOLATION 🛑\n" ++
  "---------------------------------------------------\n" ++
  "Rule: Non-composition-root Impl targets must not link other Impl targets.\n" ++
  "From: " ++ source.project_path ++ " :: " ++ source.target_name ++
    " (" ++ source_module.bundle_id ++ ")\n" ++
  "To:   " ++ dest.project_path ++ " :: " ++ dest.target_name ++
    " (" ++ dest_module.bundle_id ++ ")\n" ++
  "Fix:\n" ++
  "- Depend on the other module\x27s Interface target instead, or\n" ++
  "- Move wiring into a CompositionRoot.\n" ++
  "---------------------------------------------------"

/-- Function `_check_no_illegal_impl_to_impl_edges`: walk the edge list in order,
appending a violation message for every edge that breaks the
no-lateral-implementation-coupling rule. -/
def _check_no_illegal_impl_to_impl_edges (target_index : TargetIndex)
    (edges : List Edge) : List String :=
  edges.foldl (fun violations e =>
    match dictGet target_index e.1, dictGet target_index e.2 with
    | some source_module, some dest_module =>
        if source_module.kind ≠ "impl" ∨ dest_module.kind ≠ "impl" then violations
        else if e.1.project_path = e.2.project_path ∧ e.1.target_name = e.2.target_name then
          violations
        else if source_module.layer = "compositionRoot" then violations
        else violations ++ [_violation_message e.1 source_module e.2 dest_module]
    | _, _ => violations) []

/-- What one run prints and returns: the exit code, the lines printed to
stderr and the lines printed to stdout, in order. -/
structure RunOutput where
  exit_code : Nat
  stderr_lines : List String
  stdout_lines : List String
deriving DecidableEq, Repr

/-- The tail of `main` (lines 231-237): report violations and the failure
summary on stderr with exit code 1, or the success summary on stdout with
exit code 0. -/
def _report_outcome (violations : List String) (edges : List Edge)
    (duration_ms : Nat) : RunOutput :=
  if violations ≠ [] then
    { exit_code := 1
      stderr_lines :=
        [String.intercalate "\n\n" violations,
         "❌ graph check failed (" ++ toString violations.length ++
           " violations, " ++ toString duration_ms ++ "ms)."]
      stdout_lines := [] }
  else
    { exit_code := 0
      stderr_lines := []
      stdout_lines :=
        ["✅ graph check passed (" ++ toString edges.length ++
           " edges, " ++ toString duration_ms ++ "ms)."] }

/-- The full pipeline of `main` on a pre-supplied graph payload:
load, index, enumerate, check, report. -/
def run_pipeline (raw : Option Json) (duration_ms : Nat) : Except PyError RunOutput := do
  let graph ← _load_graph raw
  let target_index ← _build_target_index graph
  let edges ← _iter_edges graph
  let violations := _check_no_illegal_impl_to_impl_edges target_index edges
  return _report_outcome violations edges duration_ms

/-! ### Helper lemmas -/

/-- A left fold that appends per-item contributions is the flattening of
those contributions, in order. -/
theorem foldl_append_flatMap {α β : Type} (f : α → List β) :
    ∀ (l : List α) (init : List β),
      l.foldl (fun es x => es ++ f x) init = init ++ l.flatMap f := by
  intro l
  induction l with
  | nil => intro init; simp
  | cons x xs ih => intro init; simp [List.foldl_cons, ih]

/-- The per-edge decision of the rule engine, factored out of the fold of
`_check_no_illegal_impl_to_impl_edges`: the violation message the engine
emits for this edge, or `none` when the edge is permitted. -/
def _edge_verdict (target_index : TargetIndex) (e : Edge) : Option String :=
  match dictGet target_index e.1, dictGet target_index e.2 with
  | some source_module, some dest_module =>
      if source_module.kind ≠ "impl" ∨ dest_module.kind ≠ "impl" then none
      else if e.1.project_path = e.2.project_path ∧ e.1.target_name = e.2.target_name then
        none
      else if source_module.layer = "compositionRoot" then none
      else some (_violation_message e.1 source_module e.2 dest_module)
  | _, _ => none

theorem check_eq_filterMap (target_index : TargetIndex) (edges : List Edge) :
    _check_no_illegal_impl_to_impl_edges target_index edges =
      edges.filterMap (_edge_verdict target_index) := by
  unfold _check_no_illegal_impl_to_impl_edges
  suffices h : ∀ (l : List Edge) (acc : List String),
      l.foldl (fun violations e =>
        match dictGet target_index e.1, dictGet target_index e.2 with
        | some source_module, some dest_module =>
            if source_module.kind ≠ "impl" ∨ dest_module.kind ≠ "impl" then violations
            else if e.1.project_path = e.2.project_path ∧ e.1.target_name = e.2.target_name then
              violations
            else if source_module.layer = "compositionRoot" then violations
            else violations ++ [_violation_message e.1 source_module e.2 dest_module]
        | _, _ => violations) acc = acc ++ l.filterMap (_edge_verdict target_index) by
    simpa using h edges []
  intro l
  induction l with
  | nil => intro acc; simp
  | cons e es ih =>
      intro acc
      rw [List.foldl_cons, List.filterMap_cons]
      have hstep : (match dictGet target_index e.1, dictGet target_index e.2 with
          | some source_module, some dest_module =>
              if source_module.kind ≠ "impl" ∨ dest_module.kind ≠ "impl" then acc
              else if e.1.project_path = e.2.project_path ∧ e.1.target_name = e.2.target_name then
                acc
              else if source_module.layer = "compositionRoot" then acc
              else acc ++ [_violation_message e.1 source_module e.2 dest_module]
          | _, _ => acc) = acc ++ (_edge_verdict target_index e).toList := by
        unfold _edge_verdict
        rcases dictGet target_index e.1 with _ | sm <;>
          rcases dictGet target_index e.2 with _ | dm <;>
          [simp; simp; simp; skip]
        dsimp only
        split_ifs <;> simp
      rw [hstep]
      rcases hv : _edge_verdict target_index e with _ | msg <;>
        simp [hv, ih, List.append_assoc]

theorem getD_append_left {α : Type} (l ls : List α) (n : Nat) (d : α) (h : n < l.length) :
    (l ++ ls).getD n d = l.getD n d := by
  simp [List.getD_eq_getElem?_getD, List.getElem?_append_left h]

theorem getD_append_at {α : Type} (l : List α) (a d : α) :
    (l ++ [a]).getD l.length d = a := by
  simp [List.getD_eq_getElem?_getD, List.getElem?_append_right (Nat.le_refl _)]

theorem getD_dropLast {α : Type} (l : List α) (j : Nat) (d : α)
    (h : j < l.dropLast.length) :
    l.dropLast.getD j d = l.getD j d := by
  have hj : j < l.length - 1 := by simpa using h
  have hj2 : j < l.length := by omega
  simp [List.getD_eq_getElem?_getD, List.getElem?_dropLast, hj,
    List.getElem?_eq_getElem hj2]

theorem getD_mem {α : Type} (l : List α) (n : Nat) (d : α) (h : n < l.length) :
    l.getD n d ∈ l := by
  rw [List.getD_eq_getElem?_getD, List.getElem?_eq_getElem h]
  exact List.getElem_mem h

theorem _last_layer_index_append (l : List String) (a : String) :
    _last_layer_index (l ++ [a]) =
      if a ∈ _MODULE_LAYERS then some l.length else _last_layer_index l := by
  unfold _last_layer_index
  rw [List.enum_append, List.foldl_append]
  simp [List.enumFrom]

/-- Full characterization of the layer-scan loop: when it returns an
index, that index is in range, names a layer token, and no later in-range
segment is a layer token; when it returns nothing, no segment is a layer
token. -/
theorem _last_layer_index_char (l : List String) :
    (∀ i, _last_layer_index l = some i →
        i < l.length ∧ l.getD i "" ∈ _MODULE_LAYERS ∧
        ∀ j, i < j → j < l.length → l.getD j "" ∉ _MODULE_LAYERS) ∧
    (_last_layer_index l = none → ∀ j, j < l.length → l.getD j "" ∉ _MODULE_LAYERS) := by
  induction l using List.reverseRecOn with
  | nil => simp [_last_layer_index]
  | append_singleton xs a ih =>
      rw [_last_layer_index_append]
      by_cases ha : a ∈ _MODULE_LAYERS
      · simp only [ha, if_true]
        refine ⟨?_, by intro h; cases h⟩
        intro i hi
        injection hi with hi; subst hi
        refine ⟨by simp, by rw [getD_append_at]; exact ha, ?_⟩
        intro j hj hj2
        exfalso
        have : j < xs.length + 1 := by simpa using hj2
        omega
      · simp only [ha, if_false]
        constructor
        · intro i hi
          obtain ⟨hlt, hmem, hmax⟩ := ih.1 i hi
          refine ⟨by simp; omega, by rw [getD_append_left _ _ _ _ hlt]; exact hmem, ?_⟩
          intro j hj hj2
          have hlen : j < xs.length + 1 := by simpa using hj2
          rcases Nat.lt_or_ge j xs.length with hcase | hcase
          · rw [getD_append_left _ _ _ _ hcase]
            exact hmax j hj hcase
          · have : j = xs.length := by omega
            subst this
            rw [getD_append_at]
            exact ha
        · intro hnone j hj
          have hlen : j < xs.length + 1 := by simpa using hj
          rcases Nat.lt_or_ge j xs.length with hcase | hcase
          · rw [getD_append_left _ _ _ _ hcase]
            exact ih.2 hnone j hcase
          · have : j = xs.length := by omega
            subst this
            rw [getD_append_at]
            exact ha

/-- The layer-scan loop returns exactly the rightmost in-range layer
token: any index that is in range, names a layer token, and is followed by
no other in-range layer token, is the result of the loop. -/
theorem _last_layer_index_eq_some (l : List String) (i : Nat)
    (hlt : i < l.length) (hmem : l.getD i "" ∈ _MODULE_LAYERS)
    (hmax : ∀ j, i < j → j < l.length → l.getD j "" ∉ _MODULE_LAYERS) :
    _last_layer_index l = some i := by
  rcases h : _last_layer_index l with _ | i2
  · exact absurd hmem ((_last_layer_index_char l).2 h i hlt)
  · obtain ⟨hlt2, hmem2, hmax2⟩ := (_last_layer_index_char l).1 i2 h
    rcases Nat.lt_trichotomy i i2 with hc | hc | hc
    · exact absurd hmem2 (hmax i2 hc hlt2)
    · rw [hc]
    · exact absurd hmem (hmax2 i hc hlt)

/-- The non-empty dot-separated segments of an identifier. -/
def segments (s : String) : List String :=
  (_split_dot s).filter (fun p => p ≠ "")

/-- Definitional unfolding of the classifier in terms of `segments`. -/
theorem parse_unfold (s : String) :
    _parse_module_target s =
      (if (segments s).length < 2 then none
       else if (segments s).getLastD "" ∉ _MODULE_KINDS then none
       else
         match _last_layer_index (segments s).dropLast with
         | none => none
         | some layer_index =>
           if layer_index + 1 ≥ (segments s).length - 1 then none
           else some ⟨(segments s).getD layer_index "", (segments s).getD (layer_index + 1) "",
                      (segments s).getLastD "", s⟩) := rfl

/-- Success characterization of the classifier: it returns a descriptor
exactly when there are at least two non-empty segments, the last segment
is a kind token, the scan of the remaining segments finds a layer token,
and a module-name slot remains between the chosen layer segment and the
kind segment. -/
theorem parse_eq_some_iff (s : String) (m : ModuleTarget) :
    _parse_module_target s = some m ↔
      ∃ li, 2 ≤ (segments s).length ∧ (segments s).getLastD "" ∈ _MODULE_KINDS ∧
        _last_layer_index (segments s).dropLast = some li ∧
        li + 1 < (segments s).length - 1 ∧
        m = ⟨(segments s).getD li "", (segments s).getD (li + 1) "",
             (segments s).getLastD "", s⟩ := by
  rw [parse_unfold]
  constructor
  · intro h
    split at h
    · exact absurd h (by simp)
    · split at h
      · exact absurd h (by simp)
      · split at h
        · exact absurd h (by simp)
        · rename_i li hscan
          split at h
          · exact absurd h (by simp)
          · injection h with h
            refine ⟨li, ?_, ?_, hscan, ?_, h.symm⟩
            · have := ‹¬((segments s).length < 2)›; omega
            · simpa using ‹¬((segments s).getLastD "" ∉ _MODULE_KINDS)›
            · have := ‹¬(li + 1 ≥ (segments s).length - 1)›; omega
  · rintro ⟨li, h1, h2, hscan, h3, hm⟩
    rw [hscan]
    have hA : ¬((segments s).length < 2) := by omega
    have hB : ¬((segments s).getLastD "" ∉ _MODULE_KINDS) := by simpa using h2
    have hC : ¬(li + 1 ≥ (segments s).length - 1) := by omega
    simp only [if_neg hA, if_neg hB, if_neg hC]
    rw [hm]

theorem parse_none_of_short (s : String) (h : (segments s).length < 2) :
    _parse_module_target s = none := by
  rw [parse_unfold, if_pos h]

theorem parse_none_of_kind (s : String) (h : (segments s).getLastD "" ∉ _MODULE_KINDS) :
    _parse_module_target s = none := by
  rw [parse_unfold]
  by_cases h1 : (segments s).length < 2
  · rw [if_pos h1]
  · rw [if_neg h1, if_pos h]

theorem parse_none_of_no_layer (s : String)
    (h : ∀ p ∈ (segments s).dropLast, p ∉ _MODULE_LAYERS) :
    _parse_module_target s = none := by
  rw [parse_unfold]
  by_cases h1 : (segments s).length < 2
  · rw [if_pos h1]
  · rw [if_neg h1]
    by_cases h2 : (segments s).getLastD "" ∈ _MODULE_KINDS
    · rw [if_neg (show ¬((segments s).getLastD "" ∉ _MODULE_KINDS) from by simpa using h2)]
      rcases hscan : _last_layer_index (segments s).dropLast with _ | li
      · rfl
      · obtain ⟨hlt, hmem, _⟩ := (_last_layer_index_char _).1 li hscan
        exact absurd hmem (h _ (getD_mem _ _ _ hlt))
    · rw [if_pos (show (segments s).getLastD "" ∉ _MODULE_KINDS from h2)]

theorem parse_none_of_no_slot (s : String) (li : Nat)
    (hscan : _last_layer_index (segments s).dropLast = some li)
    (h : li + 1 ≥ (segments s).length - 1) :
    _parse_module_target s = none := by
  rcases hp : _parse_module_target s with _ | m
  · rfl
  · obtain ⟨li2, _, _, hscan2, h3, _⟩ := (parse_eq_some_iff s m).1 hp
    rw [hscan] at hscan2
    injection hscan2 with hscan2
    omega

/-! ### Claim theorems: the identifier classifier -/

/-- C2: for every identifier whose non-empty dot-separated segments number
at least two, whose last segment is a kind token, and in which some
segment before the last is a layer token, the classifier chooses the
rightmost such layer segment (index `i` below, stated as: in range, a
layer token, and followed by no other layer token before the kind
segment), takes the following segment as the module name, and fails when
that layer segment is the second-to-last segment; in particular
`classify "feature.core.WidgetKit.impl"` is layer `core`, module
`WidgetKit`, kind `impl`. -/
theorem c2_rightmost_layer_wins (s : String) (i : Nat)
    (hlt : i < (segments s).dropLast.length)
    (hmem : (segments s).dropLast.getD i "" ∈ _MODULE_LAYERS)
    (hmax : ∀ j, i < j → j < (segments s).dropLast.length →
        (segments s).dropLast.getD j "" ∉ _MODULE_LAYERS)
    (hkind : (segments s).getLastD "" ∈ _MODULE_KINDS) :
    (i = (segments s).length - 2 → _parse_module_target s = none) ∧
    (i ≠ (segments s).length - 2 →
      _parse_module_target s =
        some ⟨(segments s).getD i "", (segments s).getD (i + 1) "",
              (segments s).getLastD "", s⟩) ∧
    _parse_module_target "feature.core.WidgetKit.impl" =
      some ⟨"core", "WidgetKit", "impl", "feature.core.WidgetKit.impl"⟩ := by
  have hscan := _last_layer_index_eq_some _ i hlt hmem hmax
  have hlen : (segments s).dropLast.length = (segments s).length - 1 := by simp
  refine ⟨?_, ?_, by decide⟩
  · intro hi
    exact parse_none_of_no_slot s i hscan (by omega)
  · intro hi
    rw [parse_eq_some_iff]
    exact ⟨i, by omega, hkind, hscan, by omega, rfl⟩

theorem c2_witness :
    _parse_module_target "feature.core.WidgetKit.impl" =
      some ⟨"core", "WidgetKit", "impl", "feature.core.WidgetKit.impl"⟩ := by
  have h := c2_rightmost_layer_wins "feature.core.WidgetKit.impl" 1
    (by decide) (by decide)
    (by
      intro j h1 h2
      have h3 : (segments "feature.core.WidgetKit.impl").dropLast.length = 3 := by decide
      rw [h3] at h2
      have : j = 2 := by omega
      subst this
      decide)
    (by decide)
  have := h.2.1 (by decide)
  simpa using this

/-- C4: the classifier is total and never raises: for every string it
returns either a complete descriptor — layer in the layer vocabulary,
module name a non-empty segment of the identifier, kind in the kind
vocabulary, nothing left empty — or `none`; and identifiers with fewer
than two non-empty segments (delimiter-only strings included), an
unrecognized kind token, or no recognized layer token all yield `none`. -/
theorem c4_classifier_totality (s : String) :
    (_parse_module_target s = none ∨
      ∃ m, _parse_module_target s = some m ∧
        m.layer ∈ _MODULE_LAYERS ∧ m.layer ≠ "" ∧
        m.module_name ∈ segments s ∧ m.module_name ≠ "" ∧
        m.kind ∈ _MODULE_KINDS ∧ m.kind ≠ "" ∧ m.bundle_id = s) ∧
    ((segments s).length < 2 → _parse_module_target s = none) ∧
    ((segments s).getLastD "" ∉ _MODULE_KINDS → _parse_module_target s = none) ∧
    ((∀ p ∈ (segments s).dropLast, p ∉ _MODULE_LAYERS) →
      _parse_module_target s = none) := by
  refine ⟨?_, parse_none_of_short s, parse_none_of_kind s, parse_none_of_no_layer s⟩
  rcases hp : _parse_module_target s with _ | m
  · exact Or.inl rfl
  · right
    obtain ⟨li, h2, hkind, hscan, h3, hm⟩ := (parse_eq_some_iff s m).1 hp
    obtain ⟨hlt, hmem, _⟩ := (_last_layer_index_char _).1 li hscan
    have hlen : (segments s).dropLast.length = (segments s).length - 1 := by simp
    have hlayer : (segments s).getD li "" ∈ _MODULE_LAYERS := by
      rw [← getD_dropLast _ _ _ hlt]; exact hmem
    have hmodmem : (segments s).getD (li + 1) "" ∈ segments s :=
      getD_mem _ _ _ (by omega)
    have hsegne : ∀ p ∈ segments s, p ≠ "" := by
      intro p hp2
      simp only [segments] at hp2
      have := List.mem_filter.1 hp2
      simpa using this.2
    have hmodne := hsegne _ hmodmem
    have hkne : (segments s).getLastD "" ≠ "" := by
      intro hcon
      rw [hcon] at hkind
      exact absurd hkind (by decide)
    have hlne : (segments s).getD li "" ≠ "" := by
      intro hcon
      rw [hcon] at hlayer
      exact absurd hlayer (by decide)
    subst hm
    exact ⟨⟨(segments s).getD li "", (segments s).getD (li + 1) "",
            (segments s).getLastD "", s⟩,
      rfl, hlayer, hlne, hmodmem, hmodne, hkind, hkne, rfl⟩

theorem c4_witness :
    _parse_module_target "impl" = none ∧ _parse_module_target "....." = none :=
  ⟨(c4_classifier_totality "impl").2.1 (by decide),
   (c4_classifier_totality ".....").2.1 (by decide)⟩

/-- C10: the module name of a successfully classified identifier is never a
member of the layer vocabulary — the segment after the rightmost layer
token cannot itself be a layer token — though it may equal a kind token,
as `feature.impl.impl` shows. -/
theorem c10_module_name_not_layer (s : String) (m : ModuleTarget)
    (h : _parse_module_target s = some m) :
    m.module_name ∉ _MODULE_LAYERS ∧
    _parse_module_target "feature.impl.impl" =
      some ⟨"feature", "impl", "impl", "feature.impl.impl"⟩ := by
  refine ⟨?_, by decide⟩
  obtain ⟨li, h2, hkind, hscan, h3, hm⟩ := (parse_eq_some_iff s m).1 h
  obtain ⟨hlt, hmem, hmax⟩ := (_last_layer_index_char _).1 li hscan
  have hlen : (segments s).dropLast.length = (segments s).length - 1 := by simp
  have hnext := hmax (li + 1) (by omega) (by omega)
  rw [getD_dropLast _ _ _ (by omega)] at hnext
  rw [hm]
  exact hnext

theorem c10_witness : ("WidgetKit" : String) ∉ _MODULE_LAYERS :=
  (c10_module_name_not_layer "feature.core.WidgetKit.impl"
    ⟨"core", "WidgetKit", "impl", "feature.core.WidgetKit.impl"⟩ (by decide)).1

/-! ### Claim theorems: the rule engine -/

/-- C1: the rule engine reports a violation for an edge iff the index maps
both endpoints to a descriptor (neither absent nor missing), both
descriptors have kind `impl`, the two target keys differ, and the source
layer is not `compositionRoot`; the full output is exactly the in-order
filtering of the edge list by that per-edge verdict, so an edge touching
an unclassified or unknown target is never a violation and an edge between
two distinct non-compositionRoot impl targets always is. -/
theorem c1_rule_engine (target_index : TargetIndex) (edges : List Edge) :
    _check_no_illegal_impl_to_impl_edges target_index edges =
      edges.filterMap (_edge_verdict target_index) ∧
    ∀ e : Edge, (_edge_verdict target_index e).isSome ↔
      (∃ sm, dictGet target_index e.1 = some sm ∧ sm.kind = "impl" ∧
        sm.layer ≠ "compositionRoot") ∧
      (∃ dm, dictGet target_index e.2 = some dm ∧ dm.kind = "impl") ∧
      e.1 ≠ e.2 := by
  refine ⟨check_eq_filterMap _ _, ?_⟩
  intro e
  obtain ⟨⟨a1, a2⟩, b1, b2⟩ := e
  unfold _edge_verdict
  rcases h1 : dictGet target_index ⟨a1, a2⟩ with _ | sm <;>
    rcases h2 : dictGet target_index ⟨b1, b2⟩ with _ | dm
  · simp
  · simp
  · simp
  · simp only []
    split_ifs with hk hs hl <;>
      (simp_all [TargetKey.mk.injEq]; try tauto)

/-! ### Claim theorems: the edge enumerator -/

/-- Spec-side reading of the contribution one target makes to the edge
list: the concatenation, in declaration order, of the edges of each
dependency reference. -/
def _spec_target_edges (project_path : String) (kv : String × Json) : List Edge :=
  match kv.2 with
  | .obj tk =>
      match (jget tk "dependencies").getD (.arr []) with
      | .arr deps => deps.flatMap (_edge_of_dep project_path ⟨project_path, kv.1⟩)
      | _ => []
  | _ => []

/-- Spec-side reading of the contribution of one project: concatenation over
targets in declaration order. -/
def _spec_project_edges (project : Json) : List Edge :=
  match project with
  | .obj pk =>
      match (jget pk "targets").getD (.obj []) with
      | .obj tkvs => tkvs.flatMap (_spec_target_edges (pyStr ((jget pk "path").getD .null)))
      | _ => []
  | _ => []

theorem edges_of_target_eq (project_path : String) (kv : String × Json) :
    _edges_of_target project_path kv = _spec_target_edges project_path kv := by
  unfold _edges_of_target _spec_target_edges
  rcases kv with ⟨tname, trec⟩
  cases trec <;> try rfl
  rename_i tk
  simp only []
  rcases (jget tk "dependencies").getD (.arr []) with _ | _ | _ | _ | deps | _ <;> try rfl
  simpa using foldl_append_flatMap
    (_edge_of_dep project_path ⟨project_path, tname⟩) deps []

theorem edges_of_project_eq (project : Json) :
    _edges_of_project project = _spec_project_edges project := by
  unfold _edges_of_project _spec_project_edges
  cases project <;> try rfl
  rename_i pk
  simp only []
  rcases (jget pk "targets").getD (.obj []) with _ | _ | _ | _ | _ | tkvs <;> try rfl
  rw [show (fun es kv => es ++
      _edges_of_target (pyStr ((jget pk "path").getD .null)) kv) =
      (fun es kv => es ++
      _spec_target_edges (pyStr ((jget pk "path").getD .null)) kv) from
    funext (fun es => funext (fun kv => by rw [edges_of_target_eq]))]
  simpa using foldl_append_flatMap
    (_spec_target_edges (pyStr ((jget pk "path").getD .null))) tkvs []

theorem iter_edges_eq (graph : Json) (projects : List Json)
    (hp : _iter_project_objects graph = .ok projects) :
    _iter_edges graph = .ok (projects.flatMap _spec_project_edges) := by
  unfold _iter_edges
  rw [hp]
  show Except.ok (projects.foldl (fun es project => es ++ _edges_of_project project) []) =
    Except.ok (projects.flatMap _spec_project_edges)
  rw [show (fun es project => es ++ _edges_of_project project) =
      (fun es project => es ++ _spec_project_edges project) from
    funext (fun es => funext (fun p => by rw [edges_of_project_eq]))]
  rw [foldl_append_flatMap _spec_project_edges projects []]
  rfl

/-- C6: a cross-project reference (one whose `project` member is a
mapping) yields exactly one edge when its stringified destination path is
non-empty and its destination target is a string, and is silently skipped
otherwise; an intra-project reference (no mapping-valued `project`
member, a mapping-valued `target` member) yields exactly one edge when
its `name` member is a string, with the destination project path
defaulting to that of the source, and is skipped otherwise; any reference
matching neither shape yields no edge and no error. -/
theorem c6_edge_shapes (project_path : String) (source_key : TargetKey) (dep : Json) :
    (∀ dk pj, dep = .obj dk → jget dk "project" = some (.obj pj) →
      (∀ t, jget pj "target" = some (.str t) →
          pyStr ((jget pj "path").getD (.str "")) ≠ "" →
          _edge_of_dep project_path source_key dep =
            [(source_key, ⟨pyStr ((jget pj "path").getD (.str "")), t⟩)]) ∧
      (pyStr ((jget pj "path").getD (.str "")) = "" →
          _edge_of_dep project_path source_key dep = []) ∧
      ((∀ t, jget pj "target" ≠ some (.str t)) →
          _edge_of_dep project_path source_key dep = [])) ∧
    (∀ dk tj, dep = .obj dk → (∀ pj, jget dk "project" ≠ some (.obj pj)) →
      jget dk "target" = some (.obj tj) →
      (∀ n, jget tj "name" = some (.str n) →
          _edge_of_dep project_path source_key dep =
            [(source_key, ⟨project_path, n⟩)]) ∧
      ((∀ n, jget tj "name" ≠ some (.str n)) →
          _edge_of_dep project_path source_key dep = [])) ∧
    (∀ dk, dep = .obj dk → (∀ pj, jget dk "project" ≠ some (.obj pj)) →
      (∀ tj, jget dk "target" ≠ some (.obj tj)) →
      _edge_of_dep project_path source_key dep = []) ∧
    ((∀ dk, dep ≠ .obj dk) → _edge_of_dep project_path source_key dep = []) := by
  refine ⟨?_, ?_, ?_, ?_⟩
  · rintro dk pj rfl hpj
    refine ⟨?_, ?_, ?_⟩
    · intro t ht hne
      simp [_edge_of_dep, hpj, ht, hne]
    · intro hpe
      rcases hv : jget pj "target" with _ | v
      · simp [_edge_of_dep, hpj, hv]
      · cases v <;> simp [_edge_of_dep, hpj, hv, hpe]
    · intro hnt
      rcases hv : jget pj "target" with _ | v
      · simp [_edge_of_dep, hpj, hv]
      · cases v <;> first
          | exact absurd hv (hnt _)
          | simp [_edge_of_dep, hpj, hv]
  · rintro dk tj rfl hnp htj
    rcases hv : jget dk "project" with _ | v
    · constructor
      · intro n hn
        simp [_edge_of_dep, hv, htj, hn]
      · intro hnn
        rcases hw : jget tj "name" with _ | w
        · simp [_edge_of_dep, hv, htj, hw]
        · cases w <;> first
            | exact absurd hw (hnn _)
            | simp [_edge_of_dep, hv, htj, hw]
    · cases v <;> first
        | exact absurd hv (hnp _)
        | (constructor
           · intro n hn
             simp [_edge_of_dep, hv, htj, hn]
           · intro hnn
             rcases hw : jget tj "name" with _ | w
             · simp [_edge_of_dep, hv, htj, hw]
             · cases w <;> first
                 | exact absurd hw (hnn _)
                 | simp [_edge_of_dep, hv, htj, hw])
  · rintro dk rfl hnp hnt
    rcases hv : jget dk "project" with _ | v
    · rcases hw : jget dk "target" with _ | w
      · simp [_edge_of_dep, hv, hw]
      · cases w <;> first
          | exact absurd hw (hnt _)
          | simp [_edge_of_dep, hv, hw]
    · cases v <;> first
        | exact absurd hv (hnp _)
        | (rcases hw : jget dk "target" with _ | w
           · simp [_edge_of_dep, hv, hw]
           · cases w <;> first
               | exact absurd hw (hnt _)
               | simp [_edge_of_dep, hv, hw])
  · intro hno
    cases dep <;> first
      | exact absurd rfl (hno _)
      | simp [_edge_of_dep]

theorem c6_witness :
    _edge_of_dep "A" ⟨"A", "S"⟩
        (Json.obj [("project", Json.obj [("path", Json.str "B"), ("target", Json.str "T")])]) =
      [(⟨"A", "S"⟩, ⟨"B", "T"⟩)] := by
  have h := (c6_edge_shapes "A" ⟨"A", "S"⟩
      (Json.obj [("project", Json.obj [("path", Json.str "B"), ("target", Json.str "T")])])).1
      [("project", Json.obj [("path", Json.str "B"), ("target", Json.str "T")])]
      [("path", Json.str "B"), ("target", Json.str "T")] rfl rfl
  have h2 := h.1 "T" rfl (by decide)
  simpa using h2

/-- C9: a dependency reference whose `project` member holds a mapping is
handled exclusively by the cross-project shape — its result never depends
on the other members of the reference, so a malformed cross-project
reference is skipped outright and never reinterpreted through a
well-formed `target` member. -/
theorem c9_project_key_exclusive (project_path : String) (source_key : TargetKey)
    (dk1 dk2 pj : List (String × Json))
    (h1 : jget dk1 "project" = some (.obj pj))
    (h2 : jget dk2 "project" = some (.obj pj)) :
    _edge_of_dep project_path source_key (.obj dk1) =
      _edge_of_dep project_path source_key (.obj dk2) ∧
    ((pyStr ((jget pj "path").getD (.str "")) = "" ∨
        (∀ t, jget pj "target" ≠ some (.str t))) →
      _edge_of_dep project_path source_key (.obj dk1) = []) := by
  constructor
  · simp [_edge_of_dep, h1, h2]
  · intro hbad
    rcases hbad with hpe | hnt
    · rcases hv : jget pj "target" with _ | v
      · simp [_edge_of_dep, h1, hv]
      · cases v <;> simp [_edge_of_dep, h1, hv, hpe]
    · rcases hv : jget pj "target" with _ | v
      · simp [_edge_of_dep, h1, hv]
      · cases v <;> first
          | exact absurd hv (hnt _)
          | simp [_edge_of_dep, h1, hv]

theorem c9_witness :
    _edge_of_dep "A" ⟨"A", "S"⟩
        (Json.obj [("project", Json.obj [("path", Json.str "")]),
                   ("target", Json.obj [("name", Json.str "T")])]) = [] := by
  have h := c9_project_key_exclusive "A" ⟨"A", "S"⟩
      [("project", Json.obj [("path", Json.str "")]),
       ("target", Json.obj [("name", Json.str "T")])]
      [("project", Json.obj [("path", Json.str "")]),
       ("target", Json.obj [("name", Json.str "T")])]
      [("path", Json.str "")] rfl rfl
  exact h.2 (Or.inl (by decide))

/-- C7: the pipeline is a pure function of the input graph — two runs
produce identical results — the enumerated edge list is exactly the
in-order flattening over (projects, targets, dependency declarations),
and the rule engine is the in-order filtering of that list, so the
violation report is identical across runs on the same input. -/
theorem c7_determinism (graph : Json) (dur : Nat) (projects : List Json)
    (hp : _iter_project_objects graph = .ok projects) :
    run_pipeline (some graph) dur = run_pipeline (some graph) dur ∧
    _iter_edges graph = .ok (projects.flatMap _spec_project_edges) ∧
    ∀ target_index edges,
      _check_no_illegal_impl_to_impl_edges target_index edges =
        edges.filterMap (_edge_verdict target_index) :=
  ⟨rfl, iter_edges_eq graph projects hp, fun ti es => check_eq_filterMap ti es⟩

theorem c7_witness :
    _iter_edges (Json.obj [("projects", Json.arr [])]) = Except.ok [] := by
  have h := c7_determinism (Json.obj [("projects", Json.arr [])]) 0 [] rfl
  simpa using h.2.1

/-! ### Claim theorems: the target index -/

/-- Spec-side entries of one project record: in declaration order, one
`(TargetKey, classification)` pair per mapping-valued target record;
the classification is the parse of the `bundleId` member when it is a
string, `none` otherwise. -/
def _spec_project_entries (project : Json) : List (TargetKey × Option ModuleTarget) :=
  match project with
  | .obj pk =>
      match (jget pk "targets").getD (.obj []) with
      | .obj tkvs =>
          tkvs.flatMap (fun kv =>
            match kv.2 with
            | .obj tk =>
                [(⟨pyStr ((jget pk "path").getD .null), kv.1⟩,
                  match jget tk "bundleId" with
                  | some (.str s) => _parse_module_target s
                  | _ => none)]
            | _ => [])
      | _ => []
  | _ => []

theorem foldl_flatMap {α β γ : Type} (g : γ → α → γ) (f : β → List α) :
    ∀ (l : List β) (init : γ),
      (l.flatMap f).foldl g init = l.foldl (fun acc b => (f b).foldl g acc) init := by
  intro l
  induction l with
  | nil => intro init; simp
  | cons x xs ih => intro init; simp [List.foldl_append, ih]

theorem foldl_funext {α β : Type} (f g : β → α → β) (h : ∀ b a, f b a = g b a) :
    ∀ (l : List α) (init : β), l.foldl f init = l.foldl g init := by
  intro l
  induction l with
  | nil => intro init; rfl
  | cons x xs ih => intro init; rw [List.foldl_cons, List.foldl_cons, h, ih]

theorem index_project_eq (index : TargetIndex) (project : Json) :
    _index_project index project =
      (_spec_project_entries project).foldl (fun ix e => dictInsert ix e.1 e.2) index := by
  unfold _index_project _spec_project_entries
  cases project <;> try rfl
  rename_i pk
  simp only []
  rcases (jget pk "targets").getD (.obj []) with _ | _ | _ | _ | _ | tkvs <;> try rfl
  rw [foldl_flatMap]
  apply foldl_funext
  intro ix kv
  rcases kv with ⟨tname, trec⟩
  cases trec <;> rfl

theorem build_target_index_eq (graph : Json) (projects : List Json)
    (hp : _iter_project_objects graph = .ok projects) :
    _build_target_index graph =
      .ok ((projects.flatMap _spec_project_entries).foldl
        (fun ix e => dictInsert ix e.1 e.2) []) := by
  unfold _build_target_index
  rw [hp]
  show Except.ok (projects.foldl _index_project []) = _
  rw [foldl_funext _index_project
        (fun ix p => (_spec_project_entries p).foldl (fun iy e => dictInsert iy e.1 e.2) ix)
        (fun ix p => index_project_eq ix p) projects []]
  rw [foldl_flatMap]

theorem foldl_dictInsert_nodup :
    ∀ (entries : List (TargetKey × Option ModuleTarget)) (acc : TargetIndex),
      (∀ e ∈ entries, ∀ p ∈ acc, p.1 ≠ e.1) →
      (entries.map Prod.fst).Nodup →
      entries.foldl (fun ix e => dictInsert ix e.1 e.2) acc = acc ++ entries := by
  intro entries
  induction entries with
  | nil => intro acc _ _; simp
  | cons e es ih =>
      intro acc hdisj hnodup
      rw [List.map_cons, List.nodup_cons] at hnodup
      rw [List.foldl_cons]
      have hfresh : acc.any (fun p => p.1 == e.1) = false := by
        rw [List.any_eq_false]
        intro p hp
        simpa using hdisj e (List.mem_cons_self e es) p hp
      have hins : dictInsert acc e.1 e.2 = acc ++ [e] := by
        unfold dictInsert
        rw [hfresh]
        rfl
      rw [hins]
      rw [ih (acc ++ [e]) ?_ hnodup.2]
      · simp
      · intro e2 he2 p hp
        rcases List.mem_append.1 hp with hpa | hpe
        · exact hdisj e2 (List.mem_cons_of_mem _ he2) p hpa
        · have hpe2 : p = e := by simpa using hpe
          subst hpe2
          intro hcon
          exact hnodup.1 (by rw [hcon]; exact List.mem_map_of_mem Prod.fst he2)

theorem find?_of_nodup_mem (l : TargetIndex) (k : TargetKey) (v : Option ModuleTarget)
    (hnodup : (l.map Prod.fst).Nodup) (hmem : (k, v) ∈ l) :
    l.find? (fun p => p.1 == k) = some (k, v) := by
  induction l with
  | nil => cases hmem
  | cons e es ih =>
      rw [List.map_cons, List.nodup_cons] at hnodup
      rcases List.mem_cons.1 hmem with heq | htail
      · subst heq
        simp [List.find?]
      · have hne : (e.1 == k) = false := by
          have h1 : e.1 ≠ k := by
            intro hcon
            exact hnodup.1 (by rw [hcon]; exact List.mem_map_of_mem Prod.fst htail)
          simpa using h1
        simp only [List.find?_cons, hne]
        exact ih hnodup.2 htail

/-- C5 counterexample: this graph has one project record exposing path
`p` and a target mapping that contains the target name `A`, yet the built
index is empty — the non-mapping target record (`null`) gets no entry,
contradicting the claim that every target name in the mapping is keyed. -/
theorem c5_counterexample :
    _iter_project_objects
        (Json.obj [("projects", Json.arr
          [Json.obj [("path", Json.str "p"), ("targets", Json.obj [("A", Json.null)])]])]) =
      .ok [Json.obj [("path", Json.str "p"), ("targets", Json.obj [("A", Json.null)])]] ∧
    _build_target_index
        (Json.obj [("projects", Json.arr
          [Json.obj [("path", Json.str "p"), ("targets", Json.obj [("A", Json.null)])]])]) =
      .ok [] := by
  exact ⟨rfl, rfl⟩

/-- C5 (amended): for every project record exposing a path and a target
mapping, every target name of that mapping whose record is itself a
mapping is keyed in the built index — under `(str(path), name)` — to the
classification of its `bundleId` member when that member is a string and
to `none` otherwise, provided no two targets of the graph share a
TargetKey (a later duplicate would overwrite the earlier entry); target
names with non-mapping records get no entry. -/
theorem c5_amended_index_entries (graph : Json) (projects : List Json)
    (hp : _iter_project_objects graph = .ok projects)
    (hnodup : ((projects.flatMap _spec_project_entries).map Prod.fst).Nodup)
    (pk tkvs tk : List (String × Json)) (tname : String)
    (hproj : Json.obj pk ∈ projects)
    (ht : jget pk "targets" = some (.obj tkvs))
    (htv : (tname, Json.obj tk) ∈ tkvs) :
    _build_target_index graph = .ok (projects.flatMap _spec_project_entries) ∧
    (⟨pyStr ((jget pk "path").getD .null), tname⟩,
      (match jget tk "bundleId" with
       | some (.str s) => _parse_module_target s
       | _ => none)) ∈ projects.flatMap _spec_project_entries ∧
    dictGet (projects.flatMap _spec_project_entries)
        ⟨pyStr ((jget pk "path").getD .null), tname⟩ =
      (match jget tk "bundleId" with
       | some (.str s) => _parse_module_target s
       | _ => none) := by
  have hmem : (⟨pyStr ((jget pk "path").getD .null), tname⟩,
      (match jget tk "bundleId" with
       | some (.str s) => _parse_module_target s
       | _ => none)) ∈ projects.flatMap _spec_project_entries := by
    apply List.mem_flatMap.2
    refine ⟨Json.obj pk, hproj, ?_⟩
    simp only [_spec_project_entries, ht, Option.getD_some]
    apply List.mem_flatMap.2
    refine ⟨(tname, Json.obj tk), htv, ?_⟩
    simp
  refine ⟨?_, hmem, ?_⟩
  · rw [build_target_index_eq graph projects hp]
    rw [foldl_dictInsert_nodup _ [] (by simp) hnodup]
    rfl
  · unfold dictGet
    rw [find?_of_nodup_mem _ _ _ hnodup hmem]

theorem c5_witness :
    _build_target_index
        (Json.obj [("projects", Json.arr
          [Json.obj [("path", Json.str "p"),
            ("targets", Json.obj
              [("A", Json.obj [("bundleId", Json.str "feature.Widgets.impl")])])]])]) =
      .ok [(⟨"p", "A"⟩,
        some ⟨"feature", "Widgets", "impl", "feature.Widgets.impl"⟩)] := by
  have h := c5_amended_index_entries
      (Json.obj [("projects", Json.arr
        [Json.obj [("path", Json.str "p"),
          ("targets", Json.obj
            [("A", Json.obj [("bundleId", Json.str "feature.Widgets.impl")])])]])])
      [Json.obj [("path", Json.str "p"),
        ("targets", Json.obj
          [("A", Json.obj [("bundleId", Json.str "feature.Widgets.impl")])])]]
      rfl (by decide)
      [("path", Json.str "p"),
       ("targets", Json.obj
         [("A", Json.obj [("bundleId", Json.str "feature.Widgets.impl")])])]
      [("A", Json.obj [("bundleId", Json.str "feature.Widgets.impl")])]
      [("bundleId", Json.str "feature.Widgets.impl")]
      "A" (by simp) rfl (by simp)
  rw [h.1]
  rfl

/-! ### Claim theorems: the graph loader -/

/-- C3 counterexample: an empty mapping is a well-formed document that
lacks a top-level collection of project records, yet the loader succeeds
and the whole run completes with a passing report, refuting the claimed
"fails iff malformed or lacking the collection" equivalence. -/
theorem c3_counterexample :
    _load_graph (some (Json.obj [])) = .ok (Json.obj []) ∧
    _iter_project_objects (Json.obj []) = .ok [] ∧
    run_pipeline (some (Json.obj [])) 0 =
      .ok { exit_code := 0, stderr_lines := [],
            stdout_lines := ["✅ graph check passed (0 edges, 0ms)."] } := by
  refine ⟨rfl, rfl, rfl⟩

/-- C3 (amended): the loader fails with the malformed-graph error iff the
payload is not a well-formed structured document, and that failure is
fatal: the run aborts with no report.  A well-formed mapping document
without a `projects` member loads with zero project records, and a
list-valued `projects` member yields exactly its mapping records that
expose a path and a targets member — records missing either are skipped
rather than causing failure. -/
theorem c3_amended_loader (raw : Option Json) :
    ((∃ e, _load_graph raw = .error e) ↔ raw = none) ∧
    _load_graph none = .error .malformedGraph ∧
    (∀ dur, run_pipeline none dur = .error .malformedGraph) ∧
    (∀ kvs, jget kvs "projects" = none → _iter_project_objects (.obj kvs) = .ok []) ∧
    (∀ kvs items, jget kvs "projects" = some (.arr items) →
      _iter_project_objects (.obj kvs) = .ok (items.filter _is_project_object)) := by
  refine ⟨⟨?_, ?_⟩, rfl, fun dur => rfl, ?_, ?_⟩
  · rintro ⟨e, he⟩
    cases raw with
    | none => rfl
    | some j => simp [_load_graph] at he
  · rintro rfl
    exact ⟨.malformedGraph, rfl⟩
  · intro kvs hk
    unfold _iter_project_objects
    simp only [pyDictGetD, hk, Option.getD_none]
    rfl
  · intro kvs items hk
    unfold _iter_project_objects
    simp only [pyDictGetD, hk, Option.getD_some]
    rfl

theorem c3_witness :
    _iter_project_objects
        (Json.obj [("projects", Json.arr [Json.obj [("path", Json.str "p")]])]) =
      .ok [] := by
  have h := (c3_amended_loader (some (Json.obj []))).2.2.2.2
      [("projects", Json.arr [Json.obj [("path", Json.str "p")]])]
      [Json.obj [("path", Json.str "p")]] rfl
  exact h.trans (by rfl)

/-! ### Claim theorems: the reporter -/

/-- C8: the exit status is 0 iff the engine produced no violations and 1
iff it produced at least one; on failure the joined violation report and
the failure summary go to the error stream and nothing to the output
stream; on success a one-line summary naming the edge count and elapsed
time goes to the output stream and nothing to the error stream; and every
output of every successful run is the report of the violations the engine found over the
enumerated edges. -/
theorem c8_exit_and_report (violations : List String) (edges : List Edge) (dur : Nat) :
    ((_report_outcome violations edges dur).exit_code = 0 ↔ violations = []) ∧
    ((_report_outcome violations edges dur).exit_code = 1 ↔ violations ≠ []) ∧
    (violations ≠ [] →
      (_report_outcome violations edges dur).stderr_lines =
        [String.intercalate "\n\n" violations,
         "❌ graph check failed (" ++ toString violations.length ++
           " violations, " ++ toString dur ++ "ms)."] ∧
      (_report_outcome violations edges dur).stdout_lines = []) ∧
    (violations = [] →
      (_report_outcome violations edges dur).stdout_lines =
        ["✅ graph check passed (" ++ toString edges.length ++
           " edges, " ++ toString dur ++ "ms)."] ∧
      (_report_outcome violations edges dur).stderr_lines = []) ∧
    (∀ graph out, run_pipeline (some graph) dur = .ok out →
      ∃ target_index edges2, _build_target_index graph = .ok target_index ∧
        _iter_edges graph = .ok edges2 ∧
        out = _report_outcome
          (_check_no_illegal_impl_to_impl_edges target_index edges2) edges2 dur) := by
  refine ⟨?_, ?_, ?_, ?_, ?_⟩
  · unfold _report_outcome
    split_ifs with h
    · simp [h]
    · simp [not_not.1 h]
  · unfold _report_outcome
    split_ifs with h
    · simp [h]
    · simp [not_not.1 h]
  · intro h
    unfold _report_outcome
    rw [if_pos h]
    exact ⟨rfl, rfl⟩
  · intro h
    unfold _report_outcome
    rw [if_neg (by simp [h])]
    exact ⟨rfl, rfl⟩
  · intro graph out hrun
    have hstep : run_pipeline (some graph) dur = (do
        let target_index ← _build_target_index graph
        let edges2 ← _iter_edges graph
        return _report_outcome
          (_check_no_illegal_impl_to_impl_edges target_index edges2) edges2 dur :
        Except PyError RunOutput) := rfl
    rw [hstep] at hrun
    rcases hbi : _build_target_index graph with e | ti
    · rw [hbi] at hrun
      cases hrun
    · rw [hbi] at hrun
      have hstep2 : ((do
          let target_index ← (Except.ok ti : Except PyError TargetIndex)
          let edges2 ← _iter_edges graph
          return _report_outcome
            (_check_no_illegal_impl_to_impl_edges target_index edges2) edges2 dur) :
          Except PyError RunOutput) = (do
          let edges2 ← _iter_edges graph
          return _report_outcome
            (_check_no_illegal_impl_to_impl_edges ti edges2) edges2 dur) := rfl
      rw [hstep2] at hrun
      rcases hie : _iter_edges graph with e | eds
      · rw [hie] at hrun
        cases hrun
      · rw [hie] at hrun
        have h2 : (Except.ok (_report_outcome
            (_check_no_illegal_impl_to_impl_edges ti eds) eds dur) :
            Except PyError RunOutput) = .ok out := hrun
        injection h2 with h3
        exact ⟨ti, eds, rfl, rfl, h3.symm⟩

theorem c8_witness :
    (_report_outcome ["v"] [] 7).exit_code = 1 ∧
    (_report_outcome [] [] 7).exit_code = 0 :=
  ⟨((c8_exit_and_report ["v"] [] 7).2.1).mpr (by simp),
   ((c8_exit_and_report [] [] 7).1).mpr rfl⟩
